import Mathlib

/-!
Shallow embedding of the `transformSchedule` schedule-normalization core of the
ETS-Proxy repository (netlify/functions/schedule.js and its near-duplicate
variants), together with the hand-rolled US-Central civil-time-to-UTC converter
it owns (`parseDate`, `parseTime`, `nthSundayOfMonth`, `isUsCentralDst`,
`centralToUtcDate`).

Two variants of the hand-rolled code exist in the repository:
* the `_v1` definitions embed the variant without defensive guards and without
  a per-record try/catch (its `toISOString` call can throw, modelled with
  `Except`);
* the unsuffixed definitions embed the hardened variant (string guards in
  `parseDate`/`parseTime`, a truthiness check on the parsed date components,
  and a per-record try/catch that skips a record whose conversion fails).

JavaScript numbers reaching `Date.UTC` are modelled by `JsNum`
(undefined / NaN / integer); `Number()` applied to the split date and time
components is modelled for decimal-digit strings (the empty string is 0, any
other non-digit string is NaN).  `Date.UTC` is embedded with exact integer
calendar arithmetic (proleptic Gregorian, month and day overflow normalized
exactly as the ECMAScript MakeDay/MakeTime/TimeClip operations do, the
two-digit-year adjustment included); an out-of-range instant is the invalid
date `none`, on which `toISOString` throws.
-/

/-- A JavaScript number value as it flows through the schedule converter:
`undefined` (a missing destructured component), `NaN`, or an integer. -/
inductive JsNum where
  | undefined : JsNum
  | nan : JsNum
  | int : Int → JsNum
deriving DecidableEq, Repr

/-- `split` with a one-character separator, over the character list of the
string (the source only ever splits on `"-"` and `":"`). -/
def splitOnChar (sep : Char) : List Char → List (List Char)
  | [] => [[]]
  | c :: cs =>
    let r := splitOnChar sep cs
    if c = sep then [] :: r
    else
      match r with
      | [] => [[c]]
      | p :: ps => (c :: p) :: ps

/-- The numeric value of an all-digit component. -/
def digitsVal (cs : List Char) : Nat :=
  cs.foldl (fun acc c => acc * 10 + (c.toNat - 48)) 0

/-- `Number(p)` for a split date/time component: the empty string is `0`,
a non-empty decimal-digit string is its value, anything else is `NaN`. -/
def jsNumberOfPart (p : List Char) : JsNum :=
  if p = [] then .int 0
  else if p.all Char.isDigit then .int (digitsVal p) else .nan

/-- Indexing the array produced by `split`: a missing element is `undefined`,
a present element goes through `Number`. -/
def numAt (parts : List (List Char)) (i : Nat) : JsNum :=
  match parts.get? i with
  | some p => jsNumberOfPart p
  | none => .undefined

/-- The JavaScript `x || 0` applied to a number: falsy (`undefined`, `NaN`,
`0`) becomes `0`. -/
def JsNum.orZero : JsNum → JsNum
  | .int n => .int n
  | _ => .int 0

/-- A destructuring default `= 0`: only `undefined` is replaced (NaN stays). -/
def JsNum.defZero : JsNum → JsNum
  | .undefined => .int 0
  | x => x

/-- Adding an integer constant to a JavaScript number (`NaN` propagates,
arithmetic on `undefined` is `NaN`). -/
def JsNum.add : JsNum → Int → JsNum
  | .int n, k => .int (n + k)
  | _, _ => .nan

/-- `ToNumber` at the `Date.UTC` boundary: `undefined` becomes `NaN`;
`none` stands for `NaN`. -/
def JsNum.num? : JsNum → Option Int
  | .int n => some n
  | _ => none

/-- The truthiness test `!x` on a number, returning the value when truthy:
`undefined`, `NaN` and `0` are falsy. -/
def JsNum.truthyInt? : JsNum → Option Int
  | .int n => if n = 0 then none else some n
  | _ => none

/-- Days since 1970-01-01 of a proleptic-Gregorian civil date (month 1–12). -/
def daysFromCivil (y m d : Int) : Int :=
  let y' := if m ≤ 2 then y - 1 else y
  let era := Int.fdiv y' 400
  let yoe := y' - era * 400
  let mp := if m > 2 then m - 3 else m + 9
  let doy := Int.fdiv (153 * mp + 2) 5 + d - 1
  let doe := yoe * 365 + Int.fdiv yoe 4 - Int.fdiv yoe 100 + doy
  era * 146097 + doe - 719468

/-- The civil date (year, month 1–12, day) of a days-since-epoch count. -/
def civilFromDays (z0 : Int) : Int × Int × Int :=
  let z := z0 + 719468
  let era := Int.fdiv z 146097
  let doe := z - era * 146097
  let yoe := Int.fdiv (doe - Int.fdiv doe 1460 + Int.fdiv doe 36524 - Int.fdiv doe 146096) 365
  let y := yoe + era * 400
  let doy := doe - (365 * yoe + Int.fdiv yoe 4 - Int.fdiv yoe 100)
  let mp := Int.fdiv (5 * doy + 2) 153
  let d := doy - Int.fdiv (153 * mp + 2) 5 + 1
  let m := if mp < 10 then mp + 3 else mp - 9
  (if m ≤ 2 then y + 1 else y, m, d)

/-- ECMAScript `MakeDay` (month index 0-based, both month and day may
overflow and are normalized by carrying). -/
def jsMakeDay (year monthIdx day : Int) : Int :=
  let ym := year + Int.fdiv monthIdx 12
  let mn := Int.fmod monthIdx 12
  daysFromCivil ym (mn + 1) 1 + (day - 1)

/-- ECMAScript `Date.UTC`: `NaN` in any component gives an invalid date
(`none`), a two-digit year is shifted to 19xx, and the result is clipped to
±8.64e15 ms (`TimeClip`). -/
def jsDateUTC (y m d h mi s : JsNum) : Option Int :=
  match y.num?, m.num?, d.num?, h.num?, mi.num?, s.num? with
  | some yv, some mv, some dv, some hv, some miv, some sv =>
    let yr := if 0 ≤ yv ∧ yv ≤ 99 then 1900 + yv else yv
    let t := jsMakeDay yr mv dv * 86400000 + hv * 3600000 + miv * 60000 + sv * 1000
    if t.natAbs ≤ 8640000000000000 then some t else none
  | _, _, _, _, _, _ => none

/-- `getUTCDay` on a valid date value: 0 = Sunday (1970-01-01 was a Thursday). -/
def getUTCDayOf (t : Int) : Nat :=
  (Int.fmod (Int.fdiv t 86400000 + 4) 7).toNat

/-- `nthSundayOfMonth(year, month, nth)` from the source: the date value (at
midnight UTC) of the nth Sunday of the 1-based `month` of `year`. -/
def nthSundayOfMonth (y : JsNum) (month nth : Int) : Option Int :=
  match jsDateUTC y (.int (month - 1)) (.int 1) (.int 0) (.int 0) (.int 0) with
  | none => none
  | some t0 =>
    let firstDay : Int := Int.fmod (Int.fdiv t0 86400000 + 4) 7
    let dayOfMonth : Int := 1 + Int.fmod (7 - firstDay) 7 + (nth - 1) * 7
    jsDateUTC y (.int (month - 1)) (.int dayOfMonth) (.int 0) (.int 0) (.int 0)

/-- `isUsCentralDst` of the hardened variant: the civil instant (its hour
component only, `hour || 0`) is compared, as if it were UTC, against the
half-open window from 02:00 on the second Sunday of March to 02:00 on the
first Sunday of November.  Comparisons against an invalid date are false. -/
def isUsCentralDst (year month day : Int) (hour : JsNum) : Bool :=
  let dstStart := (nthSundayOfMonth (.int year) 3 2).map (· + 7200000)
  let dstEnd := (nthSundayOfMonth (.int year) 11 1).map (· + 7200000)
  let h : Int := match hour with | .int n => n | _ => 0
  let localAsUtc := jsDateUTC (.int year) (.int (month - 1)) (.int day) (.int h) (.int 0) (.int 0)
  match localAsUtc, dstStart, dstEnd with
  | some a, some s, some e => decide (s ≤ a ∧ a < e)
  | _, _, _ => false

/-- `isUsCentralDst` of the unguarded variant: the raw parsed components are
used directly (no `hour || 0`). -/
def isUsCentralDst_v1 (year month day hour : JsNum) : Bool :=
  let dstStart := (nthSundayOfMonth year 3 2).map (· + 7200000)
  let dstEnd := (nthSundayOfMonth year 11 1).map (· + 7200000)
  let localAsUtc := jsDateUTC year (month.add (-1)) day hour (.int 0) (.int 0)
  match localAsUtc, dstStart, dstEnd with
  | some a, some s, some e => decide (s ≤ a ∧ a < e)
  | _, _, _ => false

/-- `parseDate` of the hardened variant: a missing or empty string yields an
empty object (all components `undefined`). -/
def parseDate (dateStr : Option String) : JsNum × JsNum × JsNum :=
  match dateStr with
  | none => (.undefined, .undefined, .undefined)
  | some s =>
    if s = "" then (.undefined, .undefined, .undefined)
    else
      let parts := splitOnChar '-' s.data
      (numAt parts 0, numAt parts 1, numAt parts 2)

/-- `parseTime` of the hardened variant (`second: second || 0`). -/
def parseTime (timeStr : Option String) : JsNum × JsNum × JsNum :=
  match timeStr with
  | none => (.undefined, .undefined, .undefined)
  | some s =>
    if s = "" then (.undefined, .undefined, .undefined)
    else
      let parts := splitOnChar ':' s.data
      (numAt parts 0, numAt parts 1, (numAt parts 2).orZero)

/-- `parseDate` of the unguarded variant. -/
def parseDate_v1 (dateStr : String) : JsNum × JsNum × JsNum :=
  let parts := splitOnChar '-' dateStr.data
  (numAt parts 0, numAt parts 1, numAt parts 2)

/-- `parseTime` of the unguarded variant (`second: second || 0`). -/
def parseTime_v1 (timeStr : String) : JsNum × JsNum × JsNum :=
  let parts := splitOnChar ':' timeStr.data
  (numAt parts 0, numAt parts 1, (numAt parts 2).orZero)

/-- `centralToUtcDate` of the hardened variant: destructuring defaults
`hour = 0, minute = 0, second = 0`, a truthiness guard on the date
components (returning an invalid date), then `Date.UTC` with the DST-derived
offset added to the hour. -/
def centralToUtcDate (dateStr timeStr : Option String) : Option Int :=
  let (y, mo, d) := parseDate dateStr
  let (h0, mi0, s0) := parseTime timeStr
  let h := h0.defZero
  let mi := mi0.defZero
  let s := s0.defZero
  match y.truthyInt?, mo.truthyInt?, d.truthyInt? with
  | some yv, some mv, some dv =>
    let offsetHours : Int := if isUsCentralDst yv mv dv h then 5 else 6
    jsDateUTC (.int yv) (.int (mv - 1)) (.int dv) (h.add offsetHours) mi s
  | _, _, _ => none

/-- `centralToUtcDate` of the unguarded variant: no guard, the raw parsed
components flow into `Date.UTC` (NaN makes the result an invalid date). -/
def centralToUtcDate_v1 (dateStr timeStr : String) : Option Int :=
  let (y, mo, d) := parseDate_v1 dateStr
  let (h, mi, s) := parseTime_v1 timeStr
  let offsetHours : Int := if isUsCentralDst_v1 y mo d h then 5 else 6
  jsDateUTC y (mo.add (-1)) d (h.add offsetHours) mi s

/-- Left-pad a natural number with zeros to the given width. -/
def padNum (w n : Nat) : String :=
  let s := toString n
  String.mk (List.replicate (w - s.length) '0') ++ s

/-- The year field of `toISOString`: four digits for 0–9999, otherwise the
expanded six-digit signed form. -/
def isoYearStr (y : Int) : String :=
  if 0 ≤ y ∧ y ≤ 9999 then padNum 4 y.toNat
  else if y < 0 then "-" ++ padNum 6 (-y).toNat
  else "+" ++ padNum 6 y.toNat

/-- `Date.prototype.toISOString` on a valid date value. -/
def toISOString (t : Int) : String :=
  let days := Int.fdiv t 86400000
  let tod := (Int.fmod t 86400000).toNat
  let c := civilFromDays days
  isoYearStr c.1 ++ "-" ++ padNum 2 c.2.1.toNat ++ "-" ++ padNum 2 c.2.2.toNat ++ "T"
    ++ padNum 2 (tod / 3600000) ++ ":" ++ padNum 2 (tod / 60000 % 60) ++ ":"
    ++ padNum 2 (tod / 1000 % 60) ++ "." ++ padNum 3 (tod % 1000) ++ "Z"

/-- `toISOString` as the JavaScript call: it throws (a `RangeError`) on an
invalid date, modelled by `Except`. -/
def toISOStringE (m : Option Int) : Except Unit String :=
  match m with
  | some t => .ok (toISOString t)
  | none => .error ()

/-- `String.prototype.slice(a, b)` on the ASCII strings produced here
(styled on the character list, which for these strings matches UTF-16
code-unit indexing). -/
def jsSliceStr (s : String) (a b : Nat) : String :=
  ⟨(s.data.drop a).take (b - a)⟩

/-- The short day names of the source (`DAY_SHORT`). -/
def DAY_SHORT : List String := ["Sun", "Mon", "Tue", "Wed", "Thu", "Fri", "Sat"]

/-- The full day names of the source (`DAY_FULL`). -/
def DAY_FULL : List String :=
  ["Sunday", "Monday", "Tuesday", "Wednesday", "Thursday", "Friday", "Saturday"]

/-- Truthiness of a possibly-absent string field: `undefined` and the empty
string are falsy. -/
def jsTruthy : Option String → Bool
  | some s => !(s == "")
  | none => false

/-- The JavaScript `v || null` on a string field: a falsy value becomes
`null` (`none`). -/
def jsOrNull (v : Option String) : Option String :=
  if jsTruthy v then v else none

/-- The JavaScript `a || b` on string fields. -/
def jsOr (a b : Option String) : Option String :=
  if jsTruthy a then a else b

/-- A raw schedule record as consumed by `transformSchedule`; the fields the
transform reads, each a possibly-absent string. -/
structure Item where
  id : Option String := none
  classid : Option String := none
  classname : Option String := none
  location : Option String := none
  companyname : Option String := none
  arrival : Option String := none
  starttime : Option String := none
  endtime : Option String := none
  start_str : Option String := none
  end_str : Option String := none
  availability : Option String := none
  description : Option String := none
  description_html : Option String := none
deriving DecidableEq, Repr

/-- A normalized class as pushed into a day group's `classes` array. -/
structure NormalizedClass where
  id : Option String
  classId : Option String
  name : Option String
  location : Option String
  dateCentral : String
  dayOfWeek : Option String
  startTimeCentral : String
  endTimeCentral : String
  startTimeCentralStr : Option String
  endTimeCentralStr : Option String
  startTimeUTC : String
  endTimeUTC : String
  startTimeUTCShort : String
  endTimeUTCShort : String
  availability : Option String
  description : Option String
  descriptionHtml : Option String
deriving DecidableEq, Repr

/-- A per-date bucket of the output (`byDate[dateKey]`). -/
structure DayGroup where
  date : String
  day : Option String
  dayFull : Option String
  classes : List NormalizedClass
deriving DecidableEq, Repr

/-- The result of successfully converting one record: the normalized class
together with the full day name used when its day group is created. -/
structure Converted where
  cls : NormalizedClass
  dayFull : Option String
deriving DecidableEq, Repr

/-- The per-record work of the hardened `transformSchedule` loop body: the
truthiness check on `arrival`/`starttime`/`endtime` (a falsy field skips the
record), the two civil-to-UTC conversions whose failure is caught by the
per-record try/catch (a conversion failure skips the record), and the
construction of the normalized class.  `none` is a skipped record. -/
def convertItem (item : Item) : Option Converted :=
  if jsTruthy item.arrival && jsTruthy item.starttime && jsTruthy item.endtime then
    match centralToUtcDate item.arrival item.starttime,
          centralToUtcDate item.arrival item.endtime with
    | some startMs, some endMs =>
      let startUtcIso := toISOString startMs
      let endUtcIso := toISOString endMs
      let p := parseDate item.arrival
      let dateUtc := jsDateUTC p.1 (p.2.1.add (-1)) p.2.2 (.int 0) (.int 0) (.int 0)
      let dow : Option Nat := dateUtc.map getUTCDayOf
      some
        { cls :=
            { id := item.id
              classId := item.classid
              name := item.classname
              location := jsOr item.location item.companyname
              dateCentral := item.arrival.getD ""
              dayOfWeek := dow.bind DAY_SHORT.get?
              startTimeCentral := item.starttime.getD ""
              endTimeCentral := item.endtime.getD ""
              startTimeCentralStr := jsOrNull item.start_str
              endTimeCentralStr := jsOrNull item.end_str
              startTimeUTC := startUtcIso
              endTimeUTC := endUtcIso
              startTimeUTCShort := jsSliceStr startUtcIso 11 16
              endTimeUTCShort := jsSliceStr endUtcIso 11 16
              availability := jsOrNull item.availability
              description := jsOrNull item.description
              descriptionHtml := jsOrNull item.description_html }
          dayFull := dow.bind DAY_FULL.get? }
    | _, _ => none
  else none

/-- `byDate[dateKey]` lookup-or-create followed by `classes.push`: the first
group with the record's date key receives the class at the end of its
`classes`; if no group has the key, a fresh group is appended. -/
def addToGroups : List DayGroup → Converted → List DayGroup
  | [], c => [⟨c.cls.dateCentral, c.cls.dayOfWeek, c.dayFull, [c.cls]⟩]
  | g :: gs, c =>
    if g.date = c.cls.dateCentral then
      { g with classes := g.classes ++ [c.cls] } :: gs
    else
      g :: addToGroups gs c

/-- One iteration of the grouping loop: a skipped record leaves the state
unchanged, a converted record is added to its group. -/
def groupStep (gs : List DayGroup) (item : Item) : List DayGroup :=
  match convertItem item with
  | none => gs
  | some c => addToGroups gs c

/-- The grouping loop of `transformSchedule`: the day groups in creation
order, each holding its classes in input order. -/
def transformGroups (items : List Item) : List DayGroup :=
  items.foldl groupStep []

/-- The JavaScript string comparison `a <= b` (lexicographic by code unit;
these strings are ASCII, so comparing the character lists agrees with it),
i.e. `not (b < a)`. -/
def strLE (a b : String) : Bool := !decide (b.data < a.data)

/-- The day comparator `(a, b) => a.date < b.date ? -1 : a.date > b.date ? 1 : 0`
as the non-strict order it sorts by. -/
def dayLE (a b : DayGroup) : Bool := strLE a.date b.date

/-- The class comparator on `startTimeUTC`, likewise. -/
def clsLE (a b : NormalizedClass) : Bool := strLE a.startTimeUTC b.startTimeUTC

/-- Stable insertion of `x` into `m`: `x` goes in front of the first element
it is `le`-below-or-equal, so an element equal to `x` that is already in `m`
stays behind elements inserted earlier. -/
def insertSorted (le : α → α → Bool) (x : α) : List α → List α
  | [] => [x]
  | y :: ys => if le x y then x :: y :: ys else y :: insertSorted le x ys

/-- Stable insertion sort.  JavaScript's `Array.prototype.sort` is stable
(ES2019); a stable sort is determined up to equality by the comparator, so
this stable sort embeds it. -/
def insertionSort (le : α → α → Bool) : List α → List α
  | [] => []
  | x :: xs => insertSorted le x (insertionSort le xs)

/-- The post-processing of `transformSchedule`: sort the day groups
ascending by date key, then sort each group's classes ascending by UTC start
string, both with the stable sort. -/
def sortPhase (gs : List DayGroup) : List DayGroup :=
  (insertionSort dayLE gs).map fun g => { g with classes := insertionSort clsLE g.classes }

/-- The top-level value handed to `transformSchedule`: `null` (or another
falsy root), a bare array (whose `result` property is `undefined`), or an
object whose `result` field is an array (`obj (some items)`) or is absent or
not an array (`obj none`). -/
inductive ApiInput where
  | jsNull : ApiInput
  | arr : List Item → ApiInput
  | obj : Option (List Item) → ApiInput
deriving DecidableEq, Repr

/-- `transformSchedule` of the hardened variant: the top-level shape check
`!apiResponse || !Array.isArray(apiResponse.result)` yields `[]`, otherwise
the records are grouped (record-level failures skipped) and sorted. -/
def transformSchedule : ApiInput → List DayGroup
  | .obj (some items) => sortPhase (transformGroups items)
  | _ => []

/-- The per-record work of the unguarded variant's loop body: same as
`convertItem` but built from the unguarded converter, and the `toISOString`
calls can throw — an exception propagates out (there is no try/catch).
`ok none` is a record skipped by the truthiness check. -/
def convertItem_v1 (item : Item) : Except Unit (Option Converted) :=
  if jsTruthy item.arrival && jsTruthy item.starttime && jsTruthy item.endtime then do
    let startUtcIso ← toISOStringE
      (centralToUtcDate_v1 (item.arrival.getD "") (item.starttime.getD ""))
    let endUtcIso ← toISOStringE
      (centralToUtcDate_v1 (item.arrival.getD "") (item.endtime.getD ""))
    let p := parseDate_v1 (item.arrival.getD "")
    let dateUtc := jsDateUTC p.1 (p.2.1.add (-1)) p.2.2 (.int 0) (.int 0) (.int 0)
    let dow : Option Nat := dateUtc.map getUTCDayOf
    pure (some
      { cls :=
          { id := item.id
            classId := item.classid
            name := item.classname
            location := jsOr item.location item.companyname
            dateCentral := item.arrival.getD ""
            dayOfWeek := dow.bind DAY_SHORT.get?
            startTimeCentral := item.starttime.getD ""
            endTimeCentral := item.endtime.getD ""
            startTimeCentralStr := jsOrNull item.start_str
            endTimeCentralStr := jsOrNull item.end_str
            startTimeUTC := startUtcIso
            endTimeUTC := endUtcIso
            startTimeUTCShort := jsSliceStr startUtcIso 11 16
            endTimeUTCShort := jsSliceStr endUtcIso 11 16
            availability := jsOrNull item.availability
            description := jsOrNull item.description
            descriptionHtml := jsOrNull item.description_html }
        dayFull := dow.bind DAY_FULL.get? })
  else pure none

/-- `transformSchedule` of the unguarded variant: identical structure, but a
record-level conversion failure is an uncaught exception that aborts the
whole transform. -/
def transformSchedule_v1 (input : ApiInput) : Except Unit (List DayGroup) :=
  match input with
  | .obj (some items) => do
    let groups ← items.foldlM
      (fun gs item => do
        match (← convertItem_v1 item) with
        | none => pure gs
        | some c => pure (addToGroups gs c))
      []
    pure (sortPhase groups)
  | _ => .ok []

/-- Total number of classes across the day groups. -/
def sumClasses (gs : List DayGroup) : Nat :=
  (gs.map (·.classes.length)).sum

/-- A record with one of the three required fields absent or empty
(step 1 of the record loop drops it). -/
def missingReq (it : Item) : Bool :=
  !(jsTruthy it.arrival && jsTruthy it.starttime && jsTruthy it.endtime)

/-- A record with all required fields present whose date/time conversion
fails (step 2 drops it). -/
def convFail (it : Item) : Bool :=
  !(missingReq it) && (convertItem it).isNone

/-- The classes the record loop emits, in input order. -/
def emittedClasses (items : List Item) : List NormalizedClass :=
  (items.filterMap convertItem).map Converted.cls

/-- The invariant of the grouping loop, relating the day-group state to the
classes emitted so far (in input order): the group keys are distinct, every
group holds exactly the emitted classes with its date (in emission order)
and is nonempty, and every emitted class has a group. -/
def GroupsInv (gs : List DayGroup) (L : List NormalizedClass) : Prop :=
  (gs.map DayGroup.date).Nodup ∧
  (∀ g ∈ gs, g.classes = L.filter (fun c => c.dateCentral == g.date) ∧ g.classes ≠ []) ∧
  (∀ c ∈ L, c.dateCentral ∈ gs.map DayGroup.date)

/-- A well-formed record used in the concrete witnesses. -/
def itemA : Item :=
  { arrival := some "2025-12-08", starttime := some "06:15:00",
    endtime := some "07:00:00", id := some "1", classname := some "Yoga" }

/-- A second record on the same date with a later start time. -/
def itemB : Item :=
  { arrival := some "2025-12-08", starttime := some "07:00:00",
    endtime := some "08:00:00", id := some "2" }

/-- A record inside the nonexistent spring-forward hour of 2025-03-09. -/
def item10 : Item :=
  { arrival := some "2025-03-09", starttime := some "02:30:00",
    endtime := some "03:30:00" }

/-- A record whose optional passthrough fields are empty strings. -/
def item8 : Item :=
  { arrival := some "2025-12-08", starttime := some "06:15:00",
    endtime := some "07:00:00", availability := some "",
    description := some "", description_html := some "" }

/-- A record whose `arrival` is a truthy but non-numeric string: its
civil-to-UTC conversion produces an invalid date. -/
def badItem : Item :=
  { arrival := some "x", starttime := some "06:15:00", endtime := some "07:00:00" }

/-- The normalized class `transformSchedule` emits for `itemA`. -/
def clsA : NormalizedClass :=
  { id := some "1", classId := none, name := some "Yoga", location := none,
    dateCentral := "2025-12-08", dayOfWeek := some "Mon",
    startTimeCentral := "06:15:00", endTimeCentral := "07:00:00",
    startTimeCentralStr := none, endTimeCentralStr := none,
    startTimeUTC := "2025-12-08T12:15:00.000Z", endTimeUTC := "2025-12-08T13:00:00.000Z",
    startTimeUTCShort := "12:15", endTimeUTCShort := "13:00",
    availability := none, description := none, descriptionHtml := none }

/-- The normalized class `transformSchedule` emits for `itemB`. -/
def clsB : NormalizedClass :=
  { id := some "2", classId := none, name := none, location := none,
    dateCentral := "2025-12-08", dayOfWeek := some "Mon",
    startTimeCentral := "07:00:00", endTimeCentral := "08:00:00",
    startTimeCentralStr := none, endTimeCentralStr := none,
    startTimeUTC := "2025-12-08T13:00:00.000Z", endTimeUTC := "2025-12-08T14:00:00.000Z",
    startTimeUTCShort := "13:00", endTimeUTCShort := "14:00",
    availability := none, description := none, descriptionHtml := none }

/-- The day group produced for the input `[itemA]`. -/
def gA : DayGroup :=
  { date := "2025-12-08", day := some "Mon", dayFull := some "Monday", classes := [clsA] }

/-- The day group produced for the input `[itemB, itemA]` (classes sorted by
UTC start). -/
def gBA : DayGroup :=
  { date := "2025-12-08", day := some "Mon", dayFull := some "Monday", classes := [clsA, clsB] }

theorem strLE_eq_true_iff (a b : String) : strLE a b = true ↔ a ≤ b := by
  rw [strLE, Bool.not_eq_true', decide_eq_false_iff_not]
  constructor
  · intro h
    apply le_of_not_lt
    intro hlt
    exact h (String.lt_iff_toList_lt.1 hlt)
  · intro h hlt
    exact not_lt.2 h (String.lt_iff_toList_lt.2 hlt)

theorem dayLE_eq_true_iff (a b : DayGroup) : dayLE a b = true ↔ a.date ≤ b.date :=
  strLE_eq_true_iff a.date b.date

theorem clsLE_eq_true_iff (a b : NormalizedClass) :
    clsLE a b = true ↔ a.startTimeUTC ≤ b.startTimeUTC :=
  strLE_eq_true_iff a.startTimeUTC b.startTimeUTC

theorem dayLE_trans : ∀ a b c : DayGroup, dayLE a b → dayLE b c → dayLE a c := by
  intro a b c hab hbc
  rw [dayLE_eq_true_iff] at *
  exact le_trans hab hbc

theorem dayLE_total : ∀ a b : DayGroup, dayLE a b || dayLE b a := by
  intro a b
  rw [Bool.or_eq_true, dayLE_eq_true_iff, dayLE_eq_true_iff]
  exact le_total a.date b.date

theorem clsLE_trans : ∀ a b c : NormalizedClass, clsLE a b → clsLE b c → clsLE a c := by
  intro a b c hab hbc
  rw [clsLE_eq_true_iff] at *
  exact le_trans hab hbc

theorem clsLE_total : ∀ a b : NormalizedClass, clsLE a b || clsLE b a := by
  intro a b
  rw [Bool.or_eq_true, clsLE_eq_true_iff, clsLE_eq_true_iff]
  exact le_total a.startTimeUTC b.startTimeUTC

theorem addToGroups_of_mem (cv : Converted) :
    ∀ gs : List DayGroup, cv.cls.dateCentral ∈ gs.map DayGroup.date →
      (gs.map DayGroup.date).Nodup →
      addToGroups gs cv =
        gs.map fun g =>
          if g.date = cv.cls.dateCentral then
            { g with classes := g.classes ++ [cv.cls] }
          else g := by
  intro gs
  induction gs with
  | nil => intro h _; simp at h
  | cons g rest ih =>
    intro hmem hnd
    simp only [List.map_cons, List.mem_cons] at hmem
    simp only [List.map_cons, List.nodup_cons] at hnd
    by_cases h : g.date = cv.cls.dateCentral
    · simp only [addToGroups, if_pos h, List.map_cons]
      congr 1
      have hfix : ∀ g' ∈ rest,
          (if g'.date = cv.cls.dateCentral then
            { g' with classes := g'.classes ++ [cv.cls] }
          else g') = g' := by
        intro g' hg'
        rw [if_neg]
        intro e
        exact hnd.1 (by rw [h, ← e]; exact List.mem_map_of_mem DayGroup.date hg')
      rw [List.map_congr_left hfix]
      simp
    · simp only [addToGroups, if_neg h, List.map_cons, if_neg h]
      congr 1
      apply ih ?_ hnd.2
      rcases hmem with e | hm
      · exact absurd e.symm h
      · exact hm

theorem addToGroups_of_not_mem (cv : Converted) :
    ∀ gs : List DayGroup, cv.cls.dateCentral ∉ gs.map DayGroup.date →
      addToGroups gs cv =
        gs ++ [⟨cv.cls.dateCentral, cv.cls.dayOfWeek, cv.dayFull, [cv.cls]⟩] := by
  intro gs
  induction gs with
  | nil => intro _; rfl
  | cons g rest ih =>
    intro hmem
    simp only [List.map_cons, List.mem_cons] at hmem
    push_neg at hmem
    have hne : ¬ g.date = cv.cls.dateCentral := fun e => hmem.1 e.symm
    simp only [addToGroups, if_neg hne, List.cons_append]
    congr 1
    exact ih hmem.2

theorem groupsInv_addToGroups (cv : Converted) {gs : List DayGroup}
    {L : List NormalizedClass} (h : GroupsInv gs L) :
    GroupsInv (addToGroups gs cv) (L ++ [cv.cls]) := by
  obtain ⟨hnd, hchar, hcomp⟩ := h
  by_cases hk : cv.cls.dateCentral ∈ gs.map DayGroup.date
  · rw [addToGroups_of_mem cv gs hk hnd]
    have he : (DayGroup.date ∘ fun g => if g.date = cv.cls.dateCentral then
        { g with classes := g.classes ++ [cv.cls] } else g) = DayGroup.date := by
      funext g
      by_cases hgg : g.date = cv.cls.dateCentral <;> simp [hgg]
    refine ⟨?_, ?_, ?_⟩
    · rw [List.map_map, he]
      exact hnd
    · intro g' hg'
      rcases List.mem_map.1 hg' with ⟨g, hg, rfl⟩
      obtain ⟨hc, hne⟩ := hchar g hg
      by_cases hgg : g.date = cv.cls.dateCentral
      · simp only [if_pos hgg, List.filter_append]
        constructor
        · rw [← hc]
          simp [hgg]
        · simp
      · simp only [if_neg hgg, List.filter_append]
        constructor
        · rw [← hc]
          have : (cv.cls.dateCentral == g.date) = false := by
            simp
            exact fun e => hgg e.symm
          simp [this]
        · exact hne
    · intro c hc
      rw [List.map_map, he]
      rcases List.mem_append.1 hc with hcl | hcr
      · exact hcomp c hcl
      · rw [List.mem_singleton.1 hcr]
        exact hk
  · rw [addToGroups_of_not_mem cv gs hk]
    have hLk : L.filter (fun c => c.dateCentral == cv.cls.dateCentral) = [] := by
      apply List.filter_eq_nil_iff.2
      intro c hcl hbeq
      exact hk ((beq_iff_eq.1 hbeq) ▸ hcomp c hcl)
    refine ⟨?_, ?_, ?_⟩
    · rw [List.map_append]
      simp only [List.map_cons, List.map_nil]
      exact List.Nodup.append hnd (List.nodup_singleton _)
        (by simpa [List.disjoint_right] using hk)
    · intro g' hg'
      rcases List.mem_append.1 hg' with hg | hg
      · obtain ⟨hc, hne⟩ := hchar g' hg
        have hgd : ¬ cv.cls.dateCentral = g'.date := by
          intro e
          exact hk (e ▸ List.mem_map_of_mem DayGroup.date hg)
        constructor
        · rw [List.filter_append, ← hc]
          simp [hgd]
        · exact hne
      · rw [List.mem_singleton.1 hg]
        constructor
        · simp [List.filter_append, hLk]
        · simp
    · intro c hc
      rw [List.map_append]
      rcases List.mem_append.1 hc with hcl | hcr
      · exact List.mem_append_left _ (hcomp c hcl)
      · rw [List.mem_singleton.1 hcr]
        apply List.mem_append_right
        simp

theorem sumClasses_addToGroups (cv : Converted) :
    ∀ gs : List DayGroup, sumClasses (addToGroups gs cv) = sumClasses gs + 1 := by
  intro gs
  induction gs with
  | nil => simp [addToGroups, sumClasses]
  | cons g rest ih =>
    by_cases h : g.date = cv.cls.dateCentral
    · simp only [addToGroups, if_pos h, sumClasses, List.map_cons, List.sum_cons,
        List.length_append, List.length_singleton]
      omega
    · simp only [addToGroups, if_neg h, sumClasses, List.map_cons, List.sum_cons] at *
      omega

theorem groupsInv_foldl :
    ∀ (items : List Item) (gs : List DayGroup) (L : List NormalizedClass),
      GroupsInv gs L →
      GroupsInv (items.foldl groupStep gs) (L ++ emittedClasses items) := by
  intro items
  induction items with
  | nil =>
    intro gs L h
    simpa [emittedClasses] using h
  | cons item rest ih =>
    intro gs L h
    simp only [List.foldl_cons]
    cases hconv : convertItem item with
    | none =>
      rw [show groupStep gs item = gs by simp [groupStep, hconv]]
      rw [show emittedClasses (item :: rest) = emittedClasses rest by
        simp [emittedClasses, List.filterMap_cons, hconv]]
      exact ih gs L h
    | some cv =>
      rw [show groupStep gs item = addToGroups gs cv by simp [groupStep, hconv]]
      rw [show emittedClasses (item :: rest) = cv.cls :: emittedClasses rest by
        simp [emittedClasses, List.filterMap_cons, hconv]]
      rw [List.append_cons]
      exact ih _ _ (groupsInv_addToGroups cv h)

theorem groupsInv_transformGroups (items : List Item) :
    GroupsInv (transformGroups items) (emittedClasses items) := by
  have h := groupsInv_foldl items [] [] (by refine ⟨?_, ?_, ?_⟩ <;> simp)
  simpa using h

theorem sumClasses_foldl :
    ∀ (items : List Item) (gs : List DayGroup),
      sumClasses (items.foldl groupStep gs) = sumClasses gs + (emittedClasses items).length := by
  intro items
  induction items with
  | nil =>
    intro gs
    simp [emittedClasses]
  | cons item rest ih =>
    intro gs
    simp only [List.foldl_cons]
    cases hconv : convertItem item with
    | none =>
      rw [show groupStep gs item = gs by simp [groupStep, hconv], ih]
      simp [emittedClasses, List.filterMap_cons, hconv]
    | some cv =>
      rw [show groupStep gs item = addToGroups gs cv by simp [groupStep, hconv], ih,
        sumClasses_addToGroups]
      simp only [emittedClasses, List.filterMap_cons, hconv, List.map_cons, List.length_cons]
      omega

theorem sumClasses_transformGroups (items : List Item) :
    sumClasses (transformGroups items) = (emittedClasses items).length := by
  have h := sumClasses_foldl items []
  simpa [sumClasses] using h

theorem convertItem_none_of_missing {it : Item} (h : missingReq it = true) :
    convertItem it = none := by
  simp only [missingReq, Bool.not_eq_true'] at h
  simp [convertItem, h]

theorem emitted_add_counts (items : List Item) :
    (emittedClasses items).length + items.countP missingReq + items.countP convFail
      = items.length := by
  induction items with
  | nil => simp [emittedClasses]
  | cons it rest ih =>
    by_cases hm : missingReq it = true
    · have hc : convertItem it = none := convertItem_none_of_missing hm
      have hcf : ¬ (convFail it = true) := by simp [convFail, hm]
      rw [List.countP_cons_of_pos _ _ hm, List.countP_cons_of_neg _ _ hcf]
      have hE : emittedClasses (it :: rest) = emittedClasses rest := by
        simp [emittedClasses, List.filterMap_cons, hc]
      rw [hE, List.length_cons]
      omega
    · have hm2 : missingReq it = false := by revert hm; cases missingReq it <;> simp
      rw [List.countP_cons_of_neg _ _ hm]
      cases hc : convertItem it with
      | none =>
        have hcf : convFail it = true := by simp [convFail, hm2, hc]
        rw [List.countP_cons_of_pos _ _ hcf]
        have hE : emittedClasses (it :: rest) = emittedClasses rest := by
          simp [emittedClasses, List.filterMap_cons, hc]
        rw [hE, List.length_cons]
        omega
      | some cv =>
        have hcf : ¬ (convFail it = true) := by simp [convFail, hm2, hc]
        rw [List.countP_cons_of_neg _ _ hcf]
        have hE : emittedClasses (it :: rest) = cv.cls :: emittedClasses rest := by
          simp [emittedClasses, List.filterMap_cons, hc]
        rw [hE, List.length_cons, List.length_cons]
        omega


theorem mem_insertSorted (le : α → α → Bool) (x a : α) :
    ∀ m : List α, a ∈ insertSorted le x m ↔ a = x ∨ a ∈ m := by
  intro m
  induction m with
  | nil => simp [insertSorted]
  | cons y ys ih =>
    by_cases h : le x y = true
    · simp [insertSorted, h]
    · simp only [insertSorted, if_neg h, List.mem_cons, ih]
      tauto

theorem insertSorted_perm (le : α → α → Bool) (x : α) :
    ∀ m : List α, List.Perm (insertSorted le x m) (x :: m) := by
  intro m
  induction m with
  | nil => simp [insertSorted]
  | cons y ys ih =>
    by_cases h : le x y = true
    · simp [insertSorted, h]
    · simp only [insertSorted, if_neg h]
      exact (ih.cons y).trans (List.Perm.swap x y ys)

theorem insertionSort_perm (le : α → α → Bool) :
    ∀ l : List α, List.Perm (insertionSort le l) l := by
  intro l
  induction l with
  | nil => simp [insertionSort]
  | cons x xs ih =>
    show List.Perm (insertSorted le x (insertionSort le xs)) (x :: xs)
    exact (insertSorted_perm le x _).trans (ih.cons x)

theorem pairwise_insertSorted {le : α → α → Bool}
    (trans : ∀ a b c, le a b = true → le b c = true → le a c = true)
    (total : ∀ a b, (le a b || le b a) = true)
    (x : α) : ∀ {m : List α}, m.Pairwise (fun a b => le a b = true) →
      (insertSorted le x m).Pairwise (fun a b => le a b = true) := by
  intro m
  induction m with
  | nil =>
    intro _
    simp [insertSorted]
  | cons y ys ih =>
    intro h
    rw [List.pairwise_cons] at h
    obtain ⟨hy, hys⟩ := h
    by_cases hxy : le x y = true
    · simp only [insertSorted, if_pos hxy]
      rw [List.pairwise_cons]
      refine ⟨?_, ?_⟩
      · intro b hb
        rcases List.mem_cons.1 hb with rfl | hb
        · exact hxy
        · exact trans x y b hxy (hy b hb)
      · rw [List.pairwise_cons]
        exact ⟨hy, hys⟩
    · simp only [insertSorted, if_neg hxy]
      rw [List.pairwise_cons]
      refine ⟨?_, ih hys⟩
      intro b hb
      rcases (mem_insertSorted le x b ys).1 hb with hbx | hb
      · rw [hbx]
        have h2 := total x y
        rw [Bool.or_eq_true] at h2
        rcases h2 with h2 | h2
        · exact absurd h2 hxy
        · exact h2
      · exact hy b hb

theorem insertionSort_sorted {le : α → α → Bool}
    (trans : ∀ a b c, le a b = true → le b c = true → le a c = true)
    (total : ∀ a b, (le a b || le b a) = true) :
    ∀ l : List α, (insertionSort le l).Pairwise (fun a b => le a b = true) := by
  intro l
  induction l with
  | nil => simp [insertionSort]
  | cons x xs ih =>
    show (insertSorted le x (insertionSort le xs)).Pairwise _
    exact pairwise_insertSorted trans total x ih

theorem insertionSort_of_sorted {le : α → α → Bool} :
    ∀ {l : List α}, l.Pairwise (fun a b => le a b = true) → insertionSort le l = l := by
  intro l
  induction l with
  | nil =>
    intro _
    rfl
  | cons x xs ih =>
    intro h
    rw [List.pairwise_cons] at h
    obtain ⟨hx, hxs⟩ := h
    show insertSorted le x (insertionSort le xs) = x :: xs
    rw [ih hxs]
    cases xs with
    | nil => rfl
    | cons y ys =>
      have hxy := hx y (by simp)
      simp [insertSorted, hxy]

theorem filter_insertSorted_of_neg {le : α → α → Bool} {p : α → Bool} {x : α}
    (hx : p x = false) : ∀ m, (insertSorted le x m).filter p = m.filter p := by
  intro m
  induction m with
  | nil => simp [insertSorted, hx]
  | cons y ys ih =>
    by_cases h : le x y = true
    · simp [insertSorted, h, List.filter_cons, hx]
    · simp [insertSorted, h, List.filter_cons, ih]

theorem filter_insertSorted_of_pos {le : α → α → Bool} {p : α → Bool} {x : α}
    (hx : p x = true) (hcond : ∀ y, le x y = false → p y = false) :
    ∀ m, (insertSorted le x m).filter p = x :: m.filter p := by
  intro m
  induction m with
  | nil => simp [insertSorted, hx]
  | cons y ys ih =>
    by_cases h : le x y = true
    · simp [insertSorted, h, List.filter_cons, hx]
    · have hy : p y = false := hcond y (by revert h; cases le x y <;> simp)
      simp [insertSorted, h, List.filter_cons, hy, ih]

theorem filter_insertionSort {le : α → α → Bool} {p : α → Bool}
    (hcond : ∀ x y, p x = true → le x y = false → p y = false) :
    ∀ l : List α, (insertionSort le l).filter p = l.filter p := by
  intro l
  induction l with
  | nil => rfl
  | cons x xs ih =>
    show (insertSorted le x (insertionSort le xs)).filter p = _
    by_cases hx : p x = true
    · rw [filter_insertSorted_of_pos hx (fun y => hcond x y hx), ih, List.filter_cons, if_pos hx]
    · have hx2 : p x = false := by revert hx; cases p x <;> simp
      rw [filter_insertSorted_of_neg hx2, ih, List.filter_cons, if_neg (by simp [hx2])]

theorem filter_insertionSort_clsLE (k : String) (cs : List NormalizedClass) :
    (insertionSort clsLE cs).filter (fun c => c.startTimeUTC == k)
      = cs.filter (fun c => c.startTimeUTC == k) := by
  apply filter_insertionSort
  intro x y hx hle
  rw [beq_iff_eq] at hx
  have hle2 : ¬ (x.startTimeUTC ≤ y.startTimeUTC) := by
    rw [← clsLE_eq_true_iff, hle]
    simp
  rw [Bool.eq_false_iff]
  intro he
  rw [beq_iff_eq] at he
  rw [hx, he] at hle2
  exact hle2 le_rfl

theorem sumClasses_sortPhase (gs : List DayGroup) :
    sumClasses (sortPhase gs) = sumClasses gs := by
  unfold sortPhase sumClasses
  rw [List.map_map]
  have h1 : (List.map ((fun g : DayGroup => g.classes.length) ∘
        fun g => { g with classes := insertionSort clsLE g.classes }) (insertionSort dayLE gs))
      = List.map (fun g : DayGroup => g.classes.length) (insertionSort dayLE gs) := by
    apply List.map_congr_left
    intro g _
    exact (insertionSort_perm clsLE g.classes).length_eq
  rw [h1]
  exact ((insertionSort_perm dayLE gs).map _).sum_eq

theorem mem_sortPhase {gs : List DayGroup} {g : DayGroup} :
    g ∈ sortPhase gs ↔ ∃ g₀ ∈ gs, g = { g₀ with classes := insertionSort clsLE g₀.classes } := by
  unfold sortPhase
  simp only [List.mem_map]
  constructor
  · rintro ⟨g₀, h, rfl⟩
    exact ⟨g₀, (insertionSort_perm dayLE gs).mem_iff.1 h, rfl⟩
  · rintro ⟨g₀, h, rfl⟩
    exact ⟨g₀, (insertionSort_perm dayLE gs).mem_iff.2 h, rfl⟩

theorem sortPhase_days_sorted (gs : List DayGroup) :
    (sortPhase gs).Pairwise (fun a b => a.date ≤ b.date) := by
  unfold sortPhase
  apply (List.pairwise_map).2
  have h := insertionSort_sorted dayLE_trans dayLE_total gs
  refine h.imp ?_
  intro a b hab
  exact (dayLE_eq_true_iff a b).1 hab

theorem sortPhase_classes_sorted {gs : List DayGroup} {g : DayGroup} (hg : g ∈ sortPhase gs) :
    g.classes.Pairwise (fun a b => a.startTimeUTC ≤ b.startTimeUTC) := by
  rcases mem_sortPhase.1 hg with ⟨g₀, _, rfl⟩
  have h := insertionSort_sorted clsLE_trans clsLE_total g₀.classes
  refine h.imp ?_
  intro a b hab
  exact (clsLE_eq_true_iff a b).1 hab

theorem convertItem_cls_fields {it : Item} {cv : Converted} (h : convertItem it = some cv) :
    it.arrival = some cv.cls.dateCentral ∧
    cv.cls.availability = jsOrNull it.availability ∧
    cv.cls.description = jsOrNull it.description ∧
    cv.cls.descriptionHtml = jsOrNull it.description_html := by
  unfold convertItem at h
  by_cases hg : (jsTruthy it.arrival && jsTruthy it.starttime && jsTruthy it.endtime) = true
  case neg =>
    rw [if_neg hg] at h
    exact absurd h (by simp)
  case pos =>
    rw [if_pos hg] at h
    have ha : jsTruthy it.arrival = true := by
      simp only [Bool.and_eq_true] at hg
      exact hg.1.1
    cases harr : it.arrival with
    | none =>
      rw [harr] at ha
      simp [jsTruthy] at ha
    | some s =>
      rw [harr] at h
      cases hc1 : centralToUtcDate (some s) it.starttime with
      | none =>
        rw [hc1] at h
        simp at h
      | some ms =>
        cases hc2 : centralToUtcDate (some s) it.endtime with
        | none =>
          rw [hc1, hc2] at h
          simp at h
        | some me =>
          rw [hc1, hc2] at h
          simp only [Option.some.injEq] at h
          subst h
          exact ⟨rfl, rfl, rfl, rfl⟩

theorem mem_transform_classes {items : List Item} {g : DayGroup} {c : NormalizedClass}
    (hg : g ∈ transformSchedule (.obj (some items))) (hc : c ∈ g.classes) :
    c.dateCentral = g.date ∧ ∃ it ∈ items, ∃ cv, convertItem it = some cv ∧ cv.cls = c := by
  have hg' : g ∈ sortPhase (transformGroups items) := hg
  rcases mem_sortPhase.1 hg' with ⟨g₀, hg₀, rfl⟩
  have hc₀ : c ∈ g₀.classes := (insertionSort_perm clsLE g₀.classes).mem_iff.1 hc
  obtain ⟨hnd, hchar, hcomp⟩ := groupsInv_transformGroups items
  obtain ⟨hcl, hne⟩ := hchar g₀ hg₀
  rw [hcl] at hc₀
  obtain ⟨hmem, hdk⟩ := List.mem_filter.1 hc₀
  refine ⟨beq_iff_eq.1 hdk, ?_⟩
  rcases List.mem_map.1 hmem with ⟨cv, hcv, rfl⟩
  rcases List.mem_filterMap.1 hcv with ⟨it, hit, hconv⟩
  exact ⟨it, hit, cv, hconv, rfl⟩

theorem transform_dates_nodup (items : List Item) :
    ((transformSchedule (.obj (some items))).map DayGroup.date).Nodup := by
  obtain ⟨hnd, _, _⟩ := groupsInv_transformGroups items
  have hperm : List.Perm ((sortPhase (transformGroups items)).map DayGroup.date)
      ((transformGroups items).map DayGroup.date) := by
    unfold sortPhase
    rw [List.map_map]
    have he : (DayGroup.date ∘ fun g => { g with classes := insertionSort clsLE g.classes })
        = DayGroup.date := funext fun g => rfl
    rw [he]
    exact (insertionSort_perm dayLE _).map DayGroup.date
  exact hperm.nodup_iff.2 hnd

theorem transform_classes_nonempty {items : List Item} {g : DayGroup}
    (hg : g ∈ transformSchedule (.obj (some items))) : g.classes ≠ [] := by
  rcases mem_sortPhase.1 hg with ⟨g₀, hg₀, rfl⟩
  obtain ⟨_, hchar, _⟩ := groupsInv_transformGroups items
  have hne := (hchar g₀ hg₀).2
  intro he
  apply hne
  have hlen := congrArg List.length he
  rw [(insertionSort_perm clsLE g₀.classes).length_eq] at hlen
  exact List.length_eq_zero.1 hlen

theorem transform_group_classes {items : List Item} {g : DayGroup}
    (hg : g ∈ transformSchedule (.obj (some items))) :
    g.classes = insertionSort clsLE ((emittedClasses items).filter
        (fun c => c.dateCentral == g.date)) := by
  rcases mem_sortPhase.1 hg with ⟨g₀, hg₀, rfl⟩
  obtain ⟨_, hchar, _⟩ := groupsInv_transformGroups items
  have hcl := (hchar g₀ hg₀).1
  show insertionSort clsLE g₀.classes = _
  rw [hcl]

theorem foldl_groupStep_filter (items : List Item) :
    ∀ gs, items.foldl groupStep gs
      = (items.filter fun it => (convertItem it).isSome).foldl groupStep gs := by
  induction items with
  | nil =>
    intro gs
    rfl
  | cons it rest ih =>
    intro gs
    cases hc : convertItem it with
    | none =>
      have hs : ((convertItem it).isSome = true) = False := by simp [hc]
      simp only [List.foldl_cons, List.filter_cons, hs, if_false]
      rw [show groupStep gs it = gs by simp [groupStep, hc]]
      exact ih gs
    | some cv =>
      have hs : ((convertItem it).isSome = true) = True := by simp [hc]
      simp only [List.foldl_cons, List.filter_cons, hs, if_true]
      exact ih _

/-- C1: on `arrivalDate = "2025-11-02"` (first Sunday of November 2025) the
converter treats a civil start of 01:30 as daylight (UTC-5), yielding
`2025-11-02T06:30:00.000Z`, and a civil start of 02:30 as standard (UTC-6),
yielding `2025-11-02T08:30:00.000Z`; the DST window test compares the civil
hour as if it were UTC against the half-open 02:00 boundaries.  Both the
guarded and the unguarded converter variants agree. -/
theorem C1_dst_end_boundary :
    isUsCentralDst 2025 11 2 (.int 1) = true ∧
    isUsCentralDst 2025 11 2 (.int 2) = false ∧
    isUsCentralDst_v1 (.int 2025) (.int 11) (.int 2) (.int 1) = true ∧
    isUsCentralDst_v1 (.int 2025) (.int 11) (.int 2) (.int 2) = false ∧
    (centralToUtcDate (some "2025-11-02") (some "01:30:00")).map toISOString
      = some "2025-11-02T06:30:00.000Z" ∧
    (centralToUtcDate (some "2025-11-02") (some "02:30:00")).map toISOString
      = some "2025-11-02T08:30:00.000Z" ∧
    (centralToUtcDate_v1 "2025-11-02" "01:30:00").map toISOString
      = some "2025-11-02T06:30:00.000Z" ∧
    (centralToUtcDate_v1 "2025-11-02" "02:30:00").map toISOString
      = some "2025-11-02T08:30:00.000Z" :=
  ⟨rfl, rfl, rfl, rfl, rfl, rfl, rfl, rfl⟩

/-- C2 counterexample: the unguarded `transformSchedule` variant, applied to
an accepted top-level shape whose single record has a truthy but
non-numeric `arrival`, propagates the `toISOString` exception instead of
skipping the record — so the claim that `transformSchedule` never throws for
an accepted top-level input is false as stated for that variant. -/
theorem C2_counterexample :
    transformSchedule_v1 (.obj (some [badItem])) = .error () := rfl

/-- C2 (amended): in the hardened variant every record-level conversion
failure is recovered by skipping just that record and processing continues:
the output equals the output on the convertible records alone. -/
theorem C2_amended_skip_failed (items : List Item) :
    transformSchedule (.obj (some items))
      = transformSchedule (.obj (some (items.filter fun it => (convertItem it).isSome))) := by
  show sortPhase (transformGroups items) = sortPhase (transformGroups _)
  unfold transformGroups
  rw [foldl_groupStep_filter]

/-- C3: the number of emitted classes equals the number of input records
minus those with an absent/empty required field minus those whose date/time
conversion fails. -/
theorem C3_record_drop_invariant (items : List Item) :
    sumClasses (transformSchedule (.obj (some items)))
      = items.length - items.countP missingReq - items.countP convFail := by
  show sumClasses (sortPhase (transformGroups items)) = _
  rw [sumClasses_sortPhase, sumClasses_transformGroups]
  have h := emitted_add_counts items
  omega

/-- C4: every emitted class carries its originating record's `arrival` as its
local date, equal to the date key of the (unique) day group holding it; the
day-group keys are pairwise distinct and every group is nonempty. -/
theorem C4_grouping_invariant (items : List Item) :
    (∀ g ∈ transformSchedule (.obj (some items)), ∀ c ∈ g.classes,
        c.dateCentral = g.date ∧
        ∃ it ∈ items, ∃ cv, convertItem it = some cv ∧ cv.cls = c ∧
          it.arrival = some c.dateCentral) ∧
    ((transformSchedule (.obj (some items))).map DayGroup.date).Nodup ∧
    (∀ g ∈ transformSchedule (.obj (some items)), g.classes ≠ []) := by
  refine ⟨?_, transform_dates_nodup items, ?_⟩
  · intro g hg c hc
    obtain ⟨hd, it, hit, cv, hconv, hcls⟩ := mem_transform_classes hg hc
    refine ⟨hd, it, hit, cv, hconv, hcls, ?_⟩
    have harr := (convertItem_cls_fields hconv).1
    rw [hcls] at harr
    exact harr
  · intro g hg
    exact transform_classes_nonempty hg

theorem C4_witness :
    clsA.dateCentral = gA.date ∧
    ∃ it ∈ [itemA], ∃ cv, convertItem it = some cv ∧ cv.cls = clsA ∧
      it.arrival = some clsA.dateCentral :=
  (C4_grouping_invariant [itemA]).1 gA (by decide) clsA (by decide)

/-- C5: the day groups are sorted ascending by date key, each group's
classes are sorted ascending by the UTC start string, and classes with an
identical UTC start string keep their original input order (stability):
the classes with a given key are exactly the emitted classes of that group
and key, in input order. -/
theorem C5_deterministic_sorting (items : List Item) :
    (transformSchedule (.obj (some items))).Pairwise (fun a b => a.date ≤ b.date) ∧
    (∀ g ∈ transformSchedule (.obj (some items)),
      g.classes.Pairwise (fun a b => a.startTimeUTC ≤ b.startTimeUTC)) ∧
    (∀ g ∈ transformSchedule (.obj (some items)), ∀ k : String,
      g.classes.filter (fun c => c.startTimeUTC == k)
        = ((emittedClasses items).filter (fun c => c.dateCentral == g.date)).filter
            (fun c => c.startTimeUTC == k)) := by
  refine ⟨sortPhase_days_sorted _, ?_, ?_⟩
  · intro g hg
    exact sortPhase_classes_sorted hg
  · intro g hg k
    rw [transform_group_classes hg, filter_insertionSort_clsLE]

theorem C5_witness :
    gBA.classes.filter (fun c => c.startTimeUTC == "2025-12-08T13:00:00.000Z")
      = ((emittedClasses [itemB, itemA]).filter (fun c => c.dateCentral == gBA.date)).filter
          (fun c => c.startTimeUTC == "2025-12-08T13:00:00.000Z") :=
  (C5_deterministic_sorting [itemB, itemA]).2.2 gBA (by decide) "2025-12-08T13:00:00.000Z"

/-- C6 counterexample: a bare array input is not processed — it yields the
empty output, while the same single valid record inside a `result` container
yields a nonempty output.  So the claim that `transformSchedule` accepts a
bare sequence and processes its records is false. -/
theorem C6_counterexample :
    transformSchedule (.arr [itemA]) = [] ∧ transformSchedule (.obj (some [itemA])) ≠ [] := by
  refine ⟨rfl, ?_⟩
  decide

/-- C6 (amended): only an object whose `result` field is an array is
processed; a bare array yields the empty sequence in both variants. -/
theorem C6_amended_no_bare_array (items : List Item) :
    transformSchedule (.arr items) = [] ∧ transformSchedule_v1 (.arr items) = .ok [] :=
  ⟨rfl, rfl⟩

/-- C7: `transformSchedule` on `null`, on `{}`, and on any other top-level
value that is not an object carrying a `result` array returns the empty
sequence as a normal value (also in the unguarded variant, where no
exception escapes either). -/
theorem C7_malformed_top_level :
    transformSchedule .jsNull = [] ∧
    transformSchedule (.obj none) = [] ∧
    transformSchedule_v1 .jsNull = .ok [] ∧
    transformSchedule_v1 (.obj none) = .ok [] ∧
    ∀ input : ApiInput, (∀ items : List Item, input ≠ .obj (some items)) →
      transformSchedule input = [] := by
  refine ⟨rfl, rfl, rfl, rfl, ?_⟩
  intro input h
  match input with
  | .jsNull => rfl
  | .arr items => rfl
  | .obj none => rfl
  | .obj (some items) => exact absurd rfl (h items)

theorem C7_witness : transformSchedule (.obj none) = [] :=
  C7_malformed_top_level.2.2.2.2 (.obj none)
    (fun items h => Option.noConfusion (ApiInput.obj.inj h))

/-- C8 counterexample: an empty-string `availability` / `description` /
`description_html` is not passed through unchanged — `x || null` maps the
(falsy) empty string to `null`. -/
theorem C8_counterexample :
    item8.availability = some "" ∧ item8.description = some "" ∧
    item8.description_html = some "" ∧
    (transformSchedule (.obj (some [item8]))).map
        (fun g => g.classes.map (fun c => (c.availability, c.description, c.descriptionHtml)))
      = [[(none, none, none)]] := by
  refine ⟨rfl, rfl, rfl, ?_⟩
  decide

/-- C8 (amended): for every emitted class the optional fields are the
`x || null` image of the originating record's fields: truthy values pass
through unchanged, the empty string and an absent value become `null`. -/
theorem C8_amended_passthrough (items : List Item) (g : DayGroup) (c : NormalizedClass)
    (hg : g ∈ transformSchedule (.obj (some items))) (hc : c ∈ g.classes) :
    ∃ it ∈ items, c.availability = jsOrNull it.availability ∧
      c.description = jsOrNull it.description ∧
      c.descriptionHtml = jsOrNull it.description_html := by
  obtain ⟨_, it, hit, cv, hconv, hcls⟩ := mem_transform_classes hg hc
  obtain ⟨_, h1, h2, h3⟩ := convertItem_cls_fields hconv
  rw [hcls] at h1 h2 h3
  exact ⟨it, hit, h1, h2, h3⟩

theorem C8_witness :
    ∃ it ∈ [itemA], clsA.availability = jsOrNull it.availability ∧
      clsA.description = jsOrNull it.description ∧
      clsA.descriptionHtml = jsOrNull it.description_html :=
  C8_amended_passthrough [itemA] gA clsA (by decide) (by decide)

/-- C9: re-applying the sorting phase to an output of `transformSchedule`
is the identity. -/
theorem C9_sort_idempotent (items : List Item) :
    sortPhase (transformSchedule (.obj (some items)))
      = transformSchedule (.obj (some items)) := by
  have hdays : (transformSchedule (.obj (some items))).Pairwise
      (fun a b => dayLE a b = true) := by
    show (sortPhase (transformGroups items)).Pairwise _
    have h := sortPhase_days_sorted (transformGroups items)
    refine h.imp ?_
    intro a b hab
    exact (dayLE_eq_true_iff a b).2 hab
  have hcls : ∀ g ∈ transformSchedule (.obj (some items)),
      ({ g with classes := insertionSort clsLE g.classes } : DayGroup) = g := by
    intro g hg
    have hs := sortPhase_classes_sorted
      (show g ∈ sortPhase (transformGroups items) from hg)
    have hs2 : g.classes.Pairwise (fun a b => clsLE a b = true) := by
      refine hs.imp ?_
      intro a b hab
      exact (clsLE_eq_true_iff a b).2 hab
    rw [insertionSort_of_sorted hs2]
  unfold sortPhase
  rw [insertionSort_of_sorted hdays, List.map_congr_left hcls]
  exact List.map_id _

/-- C10: a civil time inside the nonexistent spring-forward hour
(2025-03-09 02:30, the second Sunday of March) is not rejected: the DST test
reports daylight, the UTC-5 offset applies, and the record is emitted with
`utcStart = "2025-03-09T07:30:00.000Z"` (in both variants). -/
theorem C10_spring_forward_gap :
    isUsCentralDst 2025 3 9 (.int 2) = true ∧
    isUsCentralDst_v1 (.int 2025) (.int 3) (.int 9) (.int 2) = true ∧
    (centralToUtcDate (some "2025-03-09") (some "02:30:00")).map toISOString
      = some "2025-03-09T07:30:00.000Z" ∧
    (centralToUtcDate_v1 "2025-03-09" "02:30:00").map toISOString
      = some "2025-03-09T07:30:00.000Z" ∧
    (transformSchedule (.obj (some [item10]))).map
        (fun g => g.classes.map (fun c => c.startTimeUTC))
      = [["2025-03-09T07:30:00.000Z"]] ∧
    transformSchedule_v1 (.obj (some [item10]))
      = .ok (transformSchedule (.obj (some [item10]))) :=
  ⟨rfl, rfl, rfl, rfl, rfl, rfl⟩
